import Mathlib

/-!
Verification development for the stock dashboard repository
(`src/stock_dashboard.py`).

The embedding below models the three core components:

* Summary Metrics: `calculate_metric` (source lines 25-44), a `try/except`
  wrapper around a straight-line computation over the frame's `Close`,
  `High`, `Low` and `Volume` columns.  The internal computation is embedded
  as `calculate_metric_core : MetricFrame → Except String _`; the Python
  `except` clause corresponds to collapsing any `Except.error` to the
  default all-zero tuple (the `st.error` UI message is outside the core).
  Python floats are modelled as `ℚ`.  A pandas frame always has
  length-uniform columns; degenerate aggregations over an empty column with
  a non-empty `Close` column (which in pandas would yield `NaN`, a value
  `ℚ` does not have) are modelled as errors — they are unreachable for
  length-uniform frames, where the initial `iloc` accesses fail first.

* Series Normalizer: `process_data` (source lines 17-23).  Pandas frames
  are modelled by `PdFrame`: an index (a `DatetimeIndex`, homogeneous in
  timezone, or a `RangeIndex`), datetime-valued columns and numeric
  columns.  A timezone-aware timestamp stores its UTC instant; localizing
  a naive index to UTC reinterprets the stored wall-clock integers as UTC
  instants, and `tz_convert` preserves instants while changing the
  attached timezone, as in pandas.  Accessing `.tzinfo` on a `RangeIndex`
  raises `AttributeError`, `reset_index` moves the index into a fresh
  column (failing on a name clash) and leaves a `RangeIndex` behind, and
  `rename` maps the column name `Date` to `Datetime`.

* Indicator Engine: `add_technical_indicators` (source lines 46-69).  The
  entry sequence `squeeze()`/`ffill()` (lines 48-49) is embedded directly:
  pandas `squeeze()` collapses a one-row column to a scalar, and calling
  the `Series` method `ffill()` on that scalar raises `AttributeError`, so
  the engine is `Except`-valued.  The numeric computations are delegated
  to the external `ta` library, whose code is not part of this repository;
  the indicator columns are therefore modelled from the spec
  (section 4.3), over `ℚ` (with `ℝ` only where the Bollinger standard
  deviation needs a square root).  Columns are `List (Option ℚ)` aligned
  with the close series, `none` marking an undefined (warm-up) position.
-/

/-- Arithmetic mean of a list of rationals (`0` on the empty list, which is
never consulted at a defined index). -/
def mean (l : List ℚ) : ℚ := l.sum / l.length

/-- One OHLCV observation, restricted to the fields `calculate_metric`
reads. -/
structure Bar where
  close : ℚ
  high : ℚ
  low : ℚ
  volume : ℚ
deriving DecidableEq, Repr

/-- Data frame as seen by `calculate_metric`: the four columns it accesses,
each possibly absent (a missing column raises `KeyError` in pandas). -/
structure MetricFrame where
  close : Option (List ℚ)
  high : Option (List ℚ)
  low : Option (List ℚ)
  volume : Option (List ℚ)
deriving DecidableEq, Repr

/-- Succeed with the value of an `Option`, or fail with the given message. -/
def okOr {α : Type} (o : Option α) (msg : String) : Except String α :=
  match o with
  | some a => .ok a
  | none => .error msg

/-- Maximum of a column, as pandas `Series.max()`; empty input would give
`NaN`, modelled as an error (unreachable on length-uniform frames). -/
def listMaxE (l : List ℚ) : Except String ℚ :=
  match l with
  | [] => .error "nan: max of empty column"
  | x :: xs => .ok (xs.foldl max x)

/-- Minimum of a column, as pandas `Series.min()`. -/
def listMinE (l : List ℚ) : Except String ℚ :=
  match l with
  | [] => .error "nan: min of empty column"
  | x :: xs => .ok (xs.foldl min x)

/-- Body of the `try` block of `calculate_metric` (source lines 27-40), in
source order: `Close` column, `iloc[-1]`, `iloc[0]`, change, percent change
(native-float division by zero raises `ZeroDivisionError`), then the
`High`/`Low`/`Volume` aggregates. -/
def calculate_metric_core (d : MetricFrame) :
    Except String (ℚ × ℚ × ℚ × ℚ × ℚ × ℚ × ℚ) := do
  let closes ← okOr d.close "KeyError: Close"
  let last_close ← okOr closes.getLast? "IndexError: iloc[-1] on empty column"
  let prev_close ← okOr closes.head? "IndexError: iloc[0] on empty column"
  let change := last_close - prev_close
  if prev_close = 0 then throw "ZeroDivisionError: float division by zero"
  let pct_change := change / prev_close * 100
  let highs ← okOr d.high "KeyError: High"
  let high ← listMaxE highs
  let lows ← okOr d.low "KeyError: Low"
  let low ← listMinE lows
  let vols ← okOr d.volume "KeyError: Volume"
  let volume := vols.sum
  let avg_volume ←
    if vols.isEmpty then throw "nan: mean of empty column"
    else pure (vols.sum / vols.length)
  pure (last_close, change, pct_change, high, low, volume, avg_volume)

/-- The function `calculate_metric` (source lines 25-44): the `try` body,
with the catch-all `except` returning the default tuple of seven zeros. -/
def calculate_metric (d : MetricFrame) : ℚ × ℚ × ℚ × ℚ × ℚ × ℚ × ℚ :=
  match calculate_metric_core d with
  | .ok t => t
  | .error _ => (0, 0, 0, 0, 0, 0, 0)

/-- Frame built from a list of bars: the four columns, present and
length-uniform, as a real pandas OHLCV frame. -/
def frameOfBars (bs : List Bar) : MetricFrame :=
  { close := some (bs.map Bar.close)
    high := some (bs.map Bar.high)
    low := some (bs.map Bar.low)
    volume := some (bs.map Bar.volume) }

/-- Timezones relevant to `process_data`: the assumed source timezone `UTC`
and the hardcoded target timezone `US/Eastern`. -/
inductive Tz where
  | utc
  | eastern
deriving DecidableEq, Repr

/-- One timestamp value inside a datetime column: naive (a wall-clock
reading, no timezone) or aware (a UTC instant together with the attached
display timezone, the pandas representation). -/
inductive Stamp where
  | naive (wall : ℤ)
  | aware (instant : ℤ) (tz : Tz)
deriving DecidableEq, Repr

/-- Index of a pandas frame: a `DatetimeIndex` (homogeneous: either all
naive, storing wall clocks, or all aware with one timezone, storing UTC
instants) or a `RangeIndex` left behind by `reset_index`. -/
inductive PdIndex where
  | dt (times : List ℤ) (tzi : Option Tz)
  | range (n : ℕ)
deriving DecidableEq, Repr

/-- Pandas frame as seen by `process_data`: an index with its name,
datetime-valued columns and numeric columns. -/
structure PdFrame where
  index : PdIndex
  indexName : String
  dtCols : List (String × List Stamp)
  valCols : List (String × List ℚ)
deriving DecidableEq, Repr

/-- Renaming applied by `data.rename(columns=..Date..Datetime..)`. -/
def renameDate (s : String) : String :=
  if s = "Date" then "Datetime" else s

/-- Reading `index.tzinfo`: `None` for a naive `DatetimeIndex`, the
attached timezone for an aware one, and `AttributeError` on a
`RangeIndex`, which has no such attribute. -/
def tzinfoE : PdIndex → Except String (Option Tz)
  | .dt _ tzi => .ok tzi
  | .range _ => .error "AttributeError: RangeIndex object has no attribute tzinfo"

/-- `index.tz_localize('UTC')` on a naive `DatetimeIndex`: the stored wall
clocks are reinterpreted as UTC instants (numerically unchanged, UTC
offset being zero).  Only reached on a naive index in `process_data`. -/
def tz_localize_utc : PdIndex → PdIndex
  | .dt walls none => .dt walls (some Tz.utc)
  | i => i

/-- `index.tz_convert('US/Eastern')` on an aware `DatetimeIndex`: the UTC
instants are preserved and the attached timezone becomes `US/Eastern`;
pandas raises `TypeError` on a naive or non-datetime index. -/
def tz_convert_eastern : PdIndex → Except String (List ℤ)
  | .dt instants (some _) => .ok instants
  | .dt _ none => .error "TypeError: cannot convert tz-naive timestamps"
  | .range _ => .error "TypeError: tz_convert on non-datetime index"

/-- The function `process_data` (source lines 17-23): check
`data.index.tzinfo is None` (an `AttributeError` on a `RangeIndex`
propagates), localize a naive index to UTC, convert to `US/Eastern`, then
`reset_index` (the index becomes a new leading column named after the
index, raising `ValueError` on a name clash, and a `RangeIndex` with no
name is installed) and rename column `Date` to `Datetime`. -/
def process_data (f : PdFrame) : Except String PdFrame := do
  let tzi ← tzinfoE f.index
  let idx := if tzi = none then tz_localize_utc f.index else f.index
  let instants ← tz_convert_eastern idx
  let colName := f.indexName
  if (f.dtCols.map Prod.fst).contains colName ∨
      (f.valCols.map Prod.fst).contains colName then
    throw "ValueError: cannot insert column, already exists"
  pure { index := .range instants.length
         indexName := ""
         dtCols := (renameDate colName,
           instants.map (fun t => Stamp.aware t Tz.eastern)) ::
           f.dtCols.map (fun c => (renameDate c.1, c.2))
         valCols := f.valCols.map (fun c => (renameDate c.1, c.2)) }

/-- Modelled from the spec (section 4.3): the indicator computations are
performed by the external `ta` library, whose code is not part of this
repository; the smoothing factor of an exponential moving average of
window `w` is `2 / (w + 1)`. -/
def alpha (w : ℕ) : ℚ := 2 / ((w : ℚ) + 1)

/-- Trailing window of length `w` ending at index `i` of the close series
(consulted only when `w ≤ i + 1`). -/
def windowAt (w : ℕ) (C : List ℚ) (i : ℕ) : List ℚ :=
  (C.drop (i + 1 - w)).take w

/-- Modelled from the spec: `SMA(window=w)` — the library code behind
`ta.trend.sma_indicator` is not in the repository.  Position `i` holds the
mean of `C[i-w+1..i]` when `w ≤ i + 1`, else undefined. -/
def smaCol (w : ℕ) (C : List ℚ) : List (Option ℚ) :=
  (List.range C.length).map fun i =>
    if w ≤ i + 1 then some (mean (windowAt w C i)) else none

/-- One step of the EMA recurrence with window `w`:
`next = alpha * c + (1 - alpha) * prev`. -/
def emaStep (w : ℕ) (prev c : ℚ) : ℚ :=
  alpha w * c + (1 - alpha w) * prev

/-- Modelled from the spec: `EMA(window=w)` — the library code behind
`ta.trend.ema_indicator` is not in the repository.  Undefined for
`i < w - 1`; seeded at `i = w - 1` with the simple mean of the first `w`
closes; afterwards follows the EMA recurrence.  Built as a scan over the
tail of the series. -/
def emaCol (w : ℕ) (C : List ℚ) : List (Option ℚ) :=
  if C.length < w then List.replicate C.length none
  else
    List.replicate (w - 1) none ++
      ((C.drop w).scanl (emaStep w) (mean (C.take w))).map some

/-- Reference recurrence for the EMA, written index-wise, straight from
the spec's words: the seed value `mean(C[0..w-1])` up to index `w - 1`,
then `EMA[i] = alpha * C[i] + (1 - alpha) * EMA[i-1]`. -/
def emaSpecValue (w : ℕ) (C : List ℚ) : ℕ → ℚ
  | 0 => mean (C.take w)
  | i + 1 =>
    if i + 1 < w then mean (C.take w)
    else alpha w * C.getD (i + 1) 0 + (1 - alpha w) * emaSpecValue w C i

/-- Modelled from the spec: `RSI(window=w)` — the library code behind
`ta.momentum.rsi` is not in the repository.  Per-step gains and losses
from the deltas of consecutive closes, average gain/loss seeded with
simple means over the first `w` deltas then updated by Wilder smoothing,
`RSI = 100 - 100/(1+RS)` with `RSI = 100` when the average loss is zero.
Undefined before `w` deltas are available. -/
def rsiCol (w : ℕ) (C : List ℚ) : List (Option ℚ) :=
  let ds := List.zipWith (fun a b => a - b) (C.drop 1) C
  if ds.length < w then List.replicate C.length none
  else
    let gl := ds.map (fun d => (max d 0, max (-d) 0))
    let seed := (mean ((gl.take w).map Prod.fst), mean ((gl.take w).map Prod.snd))
    let avgs := (gl.drop w).scanl
      (fun a p => ((a.1 * ((w : ℚ) - 1) + p.1) / w, (a.2 * ((w : ℚ) - 1) + p.2) / w))
      seed
    List.replicate w none ++ avgs.map fun a =>
      some (if a.2 = 0 then 100 else 100 - 100 / (1 + a.1 / a.2))

/-- Modelled from the spec: the MACD line `EMA(C,12) - EMA(C,26)` — the
library code behind `ta.trend.MACD` is not in the repository.  A position
is defined only where both EMAs are. -/
def macdLine (C : List ℚ) : List (Option ℚ) :=
  List.zipWith
    (fun a b => match a, b with
      | some x, some y => some (x - y)
      | _, _ => none)
    (emaCol 12 C) (emaCol 26 C)

/-- Modelled from the spec: the MACD signal line, `EMA(MACD, 9)` computed
on the MACD line itself, undefined input positions propagating as
undefined — the library code is not in the repository.  The undefined
prefix is kept and the 9-period EMA is applied to the defined suffix. -/
def macdSignalCol (C : List ℚ) : List (Option ℚ) :=
  let m := macdLine C
  let k := (m.takeWhile Option.isNone).length
  List.replicate k none ++ emaCol 9 ((m.drop k).map (fun o => o.getD 0))

/-- Population variance (`ddof = 0`) of a window, per the spec's choice of
standard-deviation convention for the Bollinger Bands. -/
def popVar (l : List ℚ) : ℚ := mean (l.map fun x => (x - mean l) ^ 2)

/-- Standard deviation of a window: square root of the population
variance. -/
noncomputable def stddev (l : List ℚ) : ℝ := Real.sqrt ((popVar l : ℚ) : ℝ)

/-- Modelled from the spec: Bollinger upper band
`Middle + k * sigma` with `window = 20`, `k = 2` — the library code behind
`ta.volatility.BollingerBands` is not in the repository. -/
noncomputable def bbUpperCol (C : List ℚ) : List (Option ℝ) :=
  (List.range C.length).map fun i =>
    if 20 ≤ i + 1 then
      some (((mean (windowAt 20 C i) : ℚ) : ℝ) + 2 * stddev (windowAt 20 C i))
    else none

/-- Modelled from the spec: Bollinger lower band `Middle - k * sigma`. -/
noncomputable def bbLowerCol (C : List ℚ) : List (Option ℝ) :=
  (List.range C.length).map fun i =>
    if 20 ≤ i + 1 then
      some (((mean (windowAt 20 C i) : ℚ) : ℝ) - 2 * stddev (windowAt 20 C i))
    else none

/-- Modelled from the spec: Bollinger middle band, the 20-period simple
moving average of the close series, computed by its own rolling-mean pass
(the library computes it separately from `SMA_20`). -/
def bbMiddleCol (C : List ℚ) : List (Option ℚ) :=
  (List.range C.length).map fun i =>
    if 20 ≤ i + 1 then some (mean (windowAt 20 C i)) else none

/-- The full set of indicator columns produced by
`add_technical_indicators` (source lines 46-69). -/
structure IndicatorSet where
  sma20 : List (Option ℚ)
  ema20 : List (Option ℚ)
  rsi14 : List (Option ℚ)
  macd : List (Option ℚ)
  macdSignal : List (Option ℚ)
  bbUpper : List (Option ℝ)
  bbLower : List (Option ℝ)
  bbMiddle : List (Option ℚ)

/-- Result of `Series.squeeze()` (source line 48): a one-element column
collapses to its scalar, any other length leaves the Series unchanged. -/
inductive Squeezed where
  | scalar (x : ℚ)
  | series (l : List ℚ)
deriving DecidableEq, Repr

/-- `data['Close'].squeeze()` on a column of values. -/
def squeeze (l : List ℚ) : Squeezed :=
  match l with
  | [x] => .scalar x
  | l => .series l

/-- `close_series.ffill()` (source line 49).  Forward fill is a `Series`
method: on the scalar produced by squeezing a one-row column it raises
`AttributeError`.  On a Series it fills gaps forward; the modelled column
carries no missing values, so the fill leaves it unchanged. -/
def ffillE : Squeezed → Except String (List ℚ)
  | .scalar _ => .error "AttributeError: float object has no attribute ffill"
  | .series l => .ok l

/-- The function `add_technical_indicators` (source lines 46-69): squeeze
the `Close` column, forward-fill it (raising `AttributeError` on the
scalar a one-row frame squeezes to), then compute one aligned column per
indicator, with the windows hardcoded in the source (SMA 20, EMA 20,
RSI 14, MACD 12/26/9, Bollinger 20 with `k = 2`). -/
noncomputable def add_technical_indicators (C : List ℚ) :
    Except String IndicatorSet := do
  let close ← ffillE (squeeze C)
  pure
    { sma20 := smaCol 20 close
      ema20 := emaCol 20 close
      rsi14 := rsiCol 14 close
      macd := macdLine close
      macdSignal := macdSignalCol close
      bbUpper := bbUpperCol close
      bbLower := bbLowerCol close
      bbMiddle := bbMiddleCol close }

/-- Decidable equality for `Except`, used to evaluate the embedding on
concrete inputs. -/
instance {ε α : Type} [DecidableEq ε] [DecidableEq α] :
    DecidableEq (Except ε α) := fun a b =>
  match a, b with
  | .ok x, .ok y =>
    if h : x = y then isTrue (by rw [h])
    else isFalse (fun hc => by cases hc; exact h rfl)
  | .error e, .error f =>
    if h : e = f then isTrue (by rw [h])
    else isFalse (fun hc => by cases hc; exact h rfl)
  | .ok _, .error _ => isFalse (fun hc => Except.noConfusion hc)
  | .error _, .ok _ => isFalse (fun hc => Except.noConfusion hc)

/-! ### Concrete inputs used by witnesses and counterexamples -/

/-- Two bars whose closes are 100 and 110. -/
def c1Bars : List Bar := [⟨100, 101, 99, 7⟩, ⟨110, 111, 109, 9⟩]

/-- Two bars whose first close is 0 and last close is 10. -/
def c1CexBars : List Bar := [⟨0, 1, 0, 5⟩, ⟨10, 11, 9, 5⟩]

/-- Three bars with assorted aggregates. -/
def c8Bars : List Bar := [⟨50, 52, 48, 1000⟩, ⟨51, 55, 47, 500⟩, ⟨49, 53, 46, 1500⟩]

/-- Two bars with zero first close and a high field equal to 20. -/
def c8CexBars : List Bar := [⟨0, 5, 1, 2⟩, ⟨10, 20, 3, 4⟩]

/-- Two bars with zero first close. -/
def c9WBars : List Bar := [⟨0, 2, 0, 3⟩, ⟨5, 6, 4, 3⟩]

/-- Two bars with zero first close and nonzero aggregates. -/
def c9CexBars : List Bar := [⟨0, 3, 0, 1⟩, ⟨7, 8, 6, 1⟩]

/-- Frame that is already normalized in the claim's sense: a
timezone-aware `US/Eastern` `DatetimeIndex`, ascending, no gaps. -/
def c6Frame : PdFrame :=
  ⟨.dt [0, 60] (some Tz.eastern), "Datetime", [], [("Close", [1, 2])]⟩

/-- Image of `c6Frame` under `process_data`: the index has been moved into
the `Datetime` column and replaced by a `RangeIndex`. -/
def c6Out : PdFrame :=
  ⟨.range 2, "", [("Datetime", [.aware 0 .eastern, .aware 60 .eastern])],
   [("Close", [1, 2])]⟩


/-- Strictly increasing close series of 16 values. -/
def c4C : List ℚ := [0, 1, 2, 3, 4, 5, 6, 7, 8, 9, 10, 11, 12, 13, 14, 15]

/-- Close series of 21 values. -/
def c2C : List ℚ :=
  [3, 1, 4, 1, 5, 9, 2, 6, 5, 3, 5, 8, 9, 7, 9, 3, 2, 3, 8, 4, 6]

/-- Constant close series of 20 values. -/
def c3C : List ℚ := List.replicate 20 50

/-! ### Evaluation lemmas for `calculate_metric` -/

lemma getLast?_map_close (b : Bar) (t : List Bar) :
    (b.close :: t.map Bar.close).getLast? =
      some (((b :: t).getLast (List.cons_ne_nil b t)).close) := by
  have h := List.getLast?_map Bar.close (b :: t)
  rw [List.map_cons] at h
  rw [h, List.getLast?_eq_getLast _ (List.cons_ne_nil b t)]
  rfl

/-- Success path of the `try` body on a non-empty frame whose first close
is nonzero. -/
lemma calculate_metric_core_cons (b : Bar) (t : List Bar) (hb : b.close ≠ 0) :
    calculate_metric_core (frameOfBars (b :: t)) =
      .ok (((b :: t).getLast (List.cons_ne_nil b t)).close,
           ((b :: t).getLast (List.cons_ne_nil b t)).close - b.close,
           (((b :: t).getLast (List.cons_ne_nil b t)).close - b.close) / b.close * 100,
           (t.map Bar.high).foldl max b.high,
           (t.map Bar.low).foldl min b.low,
           ((b :: t).map Bar.volume).sum,
           ((b :: t).map Bar.volume).sum / ((t.length : ℚ) + 1)) := by
  simp only [calculate_metric_core, frameOfBars, okOr, List.map_cons,
    List.head?_cons, listMaxE, listMinE, List.isEmpty_cons, bind, Except.bind,
    getLast?_map_close]
  rw [if_neg hb]
  simp [List.length_map, pure, Except.pure]

/-- Division-by-zero path of the `try` body: a zero first close makes the
native-float division raise. -/
lemma calculate_metric_core_cons_zero (b : Bar) (t : List Bar)
    (hb : b.close = 0) :
    calculate_metric_core (frameOfBars (b :: t)) =
      .error "ZeroDivisionError: float division by zero" := by
  simp only [calculate_metric_core, frameOfBars, okOr, List.map_cons,
    List.head?_cons, bind, Except.bind, getLast?_map_close]
  rw [if_pos hb]

lemma le_foldl_max (a : ℚ) (t : List ℚ) : a ≤ t.foldl max a := by
  induction t generalizing a with
  | nil => exact le_refl a
  | cons c t ih => exact le_trans (le_max_left a c) (ih (max a c))

lemma mem_le_foldl_max (x a : ℚ) (t : List ℚ) (hx : x ∈ t) :
    x ≤ t.foldl max a := by
  induction t generalizing a with
  | nil => cases hx
  | cons c t ih =>
    rcases List.mem_cons.mp hx with h | h
    · subst h
      exact le_trans (le_max_right a x) (le_foldl_max _ _)
    · exact ih _ h

lemma foldl_max_mem (a : ℚ) (t : List ℚ) :
    t.foldl max a = a ∨ t.foldl max a ∈ t := by
  induction t generalizing a with
  | nil => left; rfl
  | cons c t ih =>
    show t.foldl max (max a c) = a ∨ t.foldl max (max a c) ∈ c :: t
    rcases ih (max a c) with h | h
    · rcases max_choice a c with h1 | h1
      · left; rw [h, h1]
      · right; rw [h, h1]; exact List.mem_cons_self c t
    · right; exact List.mem_cons_of_mem c h

lemma foldl_min_le (a : ℚ) (t : List ℚ) : t.foldl min a ≤ a := by
  induction t generalizing a with
  | nil => exact le_refl a
  | cons c t ih => exact le_trans (ih (min a c)) (min_le_left a c)

lemma foldl_min_le_mem (x a : ℚ) (t : List ℚ) (hx : x ∈ t) :
    t.foldl min a ≤ x := by
  induction t generalizing a with
  | nil => cases hx
  | cons c t ih =>
    rcases List.mem_cons.mp hx with h | h
    · subst h
      exact le_trans (foldl_min_le (min a x) t) (min_le_right a x)
    · exact ih _ h

lemma foldl_min_mem (a : ℚ) (t : List ℚ) :
    t.foldl min a = a ∨ t.foldl min a ∈ t := by
  induction t generalizing a with
  | nil => left; rfl
  | cons c t ih =>
    show t.foldl min (min a c) = a ∨ t.foldl min (min a c) ∈ c :: t
    rcases ih (min a c) with h | h
    · rcases min_choice a c with h1 | h1
      · left; rw [h, h1]
      · right; rw [h, h1]; exact List.mem_cons_self c t
    · right; exact List.mem_cons_of_mem c h

/-! ### C1 — summary metrics: last close, change, percent change -/

/-- C1 (counterexample): the claim quantifies over every non-empty
normalized series, but on a series whose first close is 0 the catch-all
`except` makes `calculate_metric` return the default tuple, so the
reported last close is 0 even though the close of the last bar is 10. -/
theorem summarize_all_series_counterexample :
    (calculate_metric (frameOfBars c1CexBars)).1 = 0 ∧
    c1CexBars.getLast?.map Bar.close = some 10 := ⟨rfl, rfl⟩

/-- C1 (amended: restricted to series whose first close is nonzero):
`calculate_metric` reports the close of the last bar, the change
`lastClose - firstClose` and the percent change
`change / firstClose * 100`. -/
theorem summarize_last_change_pct (bs : List Bar) (fb lb : Bar)
    (hh : bs.head? = some fb) (hl : bs.getLast? = some lb)
    (hfc : fb.close ≠ 0) :
    (calculate_metric (frameOfBars bs)).1 = lb.close ∧
    (calculate_metric (frameOfBars bs)).2.1 = lb.close - fb.close ∧
    (calculate_metric (frameOfBars bs)).2.2.1 =
      (lb.close - fb.close) / fb.close * 100 := by
  cases bs with
  | nil => simp at hh
  | cons b t =>
    rw [List.head?_cons, Option.some_inj] at hh
    subst hh
    rw [List.getLast?_eq_getLast _ (List.cons_ne_nil b t), Option.some_inj] at hl
    subst hl
    unfold calculate_metric
    rw [calculate_metric_core_cons b t hfc]
    exact ⟨rfl, rfl, rfl⟩

/-- C1 (witness): on closes 100 then 110 the change is 10 and the percent
change is 10. -/
theorem summarize_last_change_pct_witness :
    (calculate_metric (frameOfBars c1Bars)).1 = 110 ∧
    (calculate_metric (frameOfBars c1Bars)).2.1 = 10 ∧
    (calculate_metric (frameOfBars c1Bars)).2.2.1 = 10 := by
  have h := summarize_last_change_pct c1Bars ⟨100, 101, 99, 7⟩ ⟨110, 111, 109, 9⟩
    rfl rfl (by norm_num)
  refine ⟨h.1, ?_, ?_⟩
  · rw [h.2.1]; norm_num
  · rw [h.2.2]; norm_num

/-! ### C8 — summary metrics: high, low, total and average volume -/

/-- C8 (counterexample): the claim quantifies over every non-empty series,
but on a series whose first close is 0 the default tuple is returned: the
reported high is 0 although a high field of 20 exceeds it. -/
theorem summarize_aggregates_counterexample :
    (calculate_metric (frameOfBars c8CexBars)).2.2.2.1 = 0 ∧
    (20 : ℚ) ∈ c8CexBars.map Bar.high ∧ ¬ ((20 : ℚ) ≤ 0) := by
  refine ⟨rfl, ?_, by norm_num⟩
  have h : c8CexBars.map Bar.high = [5, 20] := rfl
  rw [h]
  exact List.mem_cons_of_mem _ (List.mem_singleton.mpr rfl)

/-- C8 (amended: restricted to series whose first close is nonzero):
`calculate_metric` reports the maximum of the high fields, the minimum of
the low fields, the sum of the volume fields and their arithmetic mean,
over the whole series. -/
theorem summarize_aggregates (bs : List Bar) (fb : Bar)
    (hh : bs.head? = some fb) (hfc : fb.close ≠ 0) :
    ((calculate_metric (frameOfBars bs)).2.2.2.1 ∈ bs.map Bar.high ∧
      ∀ x ∈ bs.map Bar.high, x ≤ (calculate_metric (frameOfBars bs)).2.2.2.1) ∧
    ((calculate_metric (frameOfBars bs)).2.2.2.2.1 ∈ bs.map Bar.low ∧
      ∀ x ∈ bs.map Bar.low, (calculate_metric (frameOfBars bs)).2.2.2.2.1 ≤ x) ∧
    (calculate_metric (frameOfBars bs)).2.2.2.2.2.1 = (bs.map Bar.volume).sum ∧
    (calculate_metric (frameOfBars bs)).2.2.2.2.2.2 =
      (bs.map Bar.volume).sum / (bs.length : ℚ) := by
  cases bs with
  | nil => simp at hh
  | cons b t =>
    rw [List.head?_cons, Option.some_inj] at hh
    subst hh
    unfold calculate_metric
    rw [calculate_metric_core_cons b t hfc]
    refine ⟨⟨?_, ?_⟩, ⟨?_, ?_⟩, rfl, ?_⟩
    · rw [List.map_cons]
      rcases foldl_max_mem b.high (t.map Bar.high) with h | h
      · rw [h]; exact List.mem_cons_self _ _
      · exact List.mem_cons_of_mem _ h
    · intro x hx
      rw [List.map_cons, List.mem_cons] at hx
      rcases hx with h | h
      · subst h; exact le_foldl_max _ _
      · exact mem_le_foldl_max x b.high (t.map Bar.high) h
    · rw [List.map_cons]
      rcases foldl_min_mem b.low (t.map Bar.low) with h | h
      · rw [h]; exact List.mem_cons_self _ _
      · exact List.mem_cons_of_mem _ h
    · intro x hx
      rw [List.map_cons, List.mem_cons] at hx
      rcases hx with h | h
      · subst h; exact foldl_min_le _ _
      · exact foldl_min_le_mem x b.low (t.map Bar.low) h
    · show ((b :: t).map Bar.volume).sum / ((t.length : ℚ) + 1) =
        ((b :: t).map Bar.volume).sum / (((b :: t).length : ℚ))
      rw [List.length_cons]
      push_cast
      ring_nf

/-- C8 (witness): concrete aggregates on three bars. -/
theorem summarize_aggregates_witness :
    (calculate_metric (frameOfBars c8Bars)).2.2.2.2.2.1 =
      (c8Bars.map Bar.volume).sum ∧
    (calculate_metric (frameOfBars c8Bars)).2.2.2.1 ∈ c8Bars.map Bar.high := by
  have h := summarize_aggregates c8Bars ⟨50, 52, 48, 1000⟩ rfl (by norm_num)
  exact ⟨h.2.2.1, h.1.1⟩

/-! ### C9 — division by zero on a zero base price -/

/-- C9 (counterexample): on a series whose first close is 0 the internal
computation does raise the division-by-zero error, but `calculate_metric`
catches it and hands the caller the plain all-zero tuple: the percent
change reaches the caller as the ordinary value 0, not as an undefined
marker. -/
theorem summarize_zero_base_counterexample :
    calculate_metric_core (frameOfBars c9CexBars) =
      .error "ZeroDivisionError: float division by zero" ∧
    calculate_metric (frameOfBars c9CexBars) = (0, 0, 0, 0, 0, 0, 0) :=
  ⟨rfl, rfl⟩

/-- C9 (amended): for a non-empty bar frame the internal computation fails
with the division-by-zero error exactly when the first close is 0, and in
that case `calculate_metric` catches the failure and returns the default
all-zero tuple — no exception and no infinity reaches the caller, but the
percent change is reported as the ordinary value 0 rather than as
undefined. -/
theorem summarize_zero_base_default (bs : List Bar) (fb : Bar)
    (hh : bs.head? = some fb) :
    (calculate_metric_core (frameOfBars bs) =
        .error "ZeroDivisionError: float division by zero" ↔ fb.close = 0) ∧
    (fb.close = 0 → calculate_metric (frameOfBars bs) = (0, 0, 0, 0, 0, 0, 0)) := by
  cases bs with
  | nil => simp at hh
  | cons b t =>
    rw [List.head?_cons, Option.some_inj] at hh
    subst hh
    constructor
    · constructor
      · intro h
        by_contra hne
        rw [calculate_metric_core_cons b t hne] at h
        exact Except.noConfusion h
      · intro h
        exact calculate_metric_core_cons_zero b t h
    · intro h
      unfold calculate_metric
      rw [calculate_metric_core_cons_zero b t h]

/-- C9 (witness): the zero-base behavior at a concrete two-bar series. -/
theorem summarize_zero_base_default_witness :
    calculate_metric_core (frameOfBars c9WBars) =
      .error "ZeroDivisionError: float division by zero" ∧
    calculate_metric (frameOfBars c9WBars) = (0, 0, 0, 0, 0, 0, 0) := by
  have h := summarize_zero_base_default c9WBars ⟨0, 2, 0, 3⟩ rfl
  exact ⟨h.1.mpr rfl, h.2 rfl⟩

/-! ### C10 — the catch-all `except` clause -/

/-- C10: whenever the internal computation of `calculate_metric` fails
with any exception, the function catches it and returns the fixed default
tuple of seven zeros; no exception propagates to the caller. -/
theorem calculate_metric_never_propagates (d : MetricFrame) (e : String)
    (h : calculate_metric_core d = .error e) :
    calculate_metric d = (0, 0, 0, 0, 0, 0, 0) := by
  unfold calculate_metric
  rw [h]

/-- C10 (witness): the default tuple is returned on an empty frame, on a
frame missing its columns, and on a zero first close. -/
theorem calculate_metric_never_propagates_witness :
    calculate_metric_core (frameOfBars []) =
      .error "IndexError: iloc[-1] on empty column" ∧
    calculate_metric (frameOfBars []) = (0, 0, 0, 0, 0, 0, 0) ∧
    calculate_metric_core ⟨none, none, none, none⟩ = .error "KeyError: Close" ∧
    calculate_metric ⟨none, none, none, none⟩ = (0, 0, 0, 0, 0, 0, 0) ∧
    calculate_metric_core (frameOfBars [⟨0, 1, 0, 1⟩]) =
      .error "ZeroDivisionError: float division by zero" ∧
    calculate_metric (frameOfBars [⟨0, 1, 0, 1⟩]) = (0, 0, 0, 0, 0, 0, 0) := by
  refine ⟨rfl, calculate_metric_never_propagates _ _ rfl,
    rfl, calculate_metric_never_propagates _ _ rfl,
    rfl, calculate_metric_never_propagates _ _ rfl⟩

/-! ### C6 — idempotence of normalization -/

/-- C6 (counterexample): `process_data` on an already-normalized frame (a
timezone-aware `US/Eastern` `DatetimeIndex`) succeeds but does not return
its input: `reset_index` has moved the timestamps into a column, and a
second application even fails, because the leftover `RangeIndex` has no
`tzinfo` attribute. -/
theorem process_data_idempotent_counterexample :
    process_data c6Frame = .ok c6Out ∧
    process_data c6Out =
      .error "AttributeError: RangeIndex object has no attribute tzinfo" ∧
    c6Out ≠ c6Frame := by
  refine ⟨rfl, rfl, ?_⟩
  intro h
  have h2 := congrArg PdFrame.index h
  simp [c6Frame, c6Out] at h2

/-- C6 (amended): `process_data` on a frame whose `DatetimeIndex` is
already timezone-aware in `US/Eastern` succeeds and preserves the
timestamp instants and every value column, but moves the index into a
datetime column over a fresh `RangeIndex` rather than returning the input
unchanged; applying `process_data` to that output fails with
`AttributeError`. -/
theorem process_data_normalized_behavior (ins : List ℤ) (name : String)
    (vcs : List (String × List ℚ))
    (hclash : (vcs.map Prod.fst).contains name = false) :
    process_data ⟨.dt ins (some Tz.eastern), name, [], vcs⟩ =
      .ok ⟨.range ins.length, "",
           [(renameDate name, ins.map fun t => Stamp.aware t Tz.eastern)],
           vcs.map fun c => (renameDate c.1, c.2)⟩ ∧
    ∀ g, process_data ⟨.dt ins (some Tz.eastern), name, [], vcs⟩ = .ok g →
      ∃ e, process_data g = .error e := by
  have h1 : process_data ⟨.dt ins (some Tz.eastern), name, [], vcs⟩ =
      .ok ⟨.range ins.length, "",
           [(renameDate name, ins.map fun t => Stamp.aware t Tz.eastern)],
           vcs.map fun c => (renameDate c.1, c.2)⟩ := by
    have hcond : ¬((false : Bool) = true ∨
        (List.map Prod.fst vcs).contains name = true) := by
      intro hor
      rcases hor with h | h
      · simp at h
      · rw [hclash] at h; simp at h
    simp [process_data, tzinfoE, tz_convert_eastern, bind, Except.bind]
    rw [if_neg hcond]
    rfl
  refine ⟨h1, ?_⟩
  intro g hg
  rw [h1] at hg
  have h2 : (⟨.range ins.length, "",
      [(renameDate name, ins.map fun t => Stamp.aware t Tz.eastern)],
      vcs.map fun c => (renameDate c.1, c.2)⟩ : PdFrame) = g := by
    injection hg
  rw [← h2]
  exact ⟨"AttributeError: RangeIndex object has no attribute tzinfo", rfl⟩

/-- C6 (witness): concrete instantiation on a one-row frame with an
aware `US/Eastern` index named `Date`. -/
theorem process_data_normalized_behavior_witness :
    process_data ⟨.dt [3] (some Tz.eastern), "Date", [], [("Open", [2])]⟩ =
      .ok ⟨.range ([3] : List ℤ).length, "",
           [(renameDate "Date", ([3] : List ℤ).map fun t => Stamp.aware t Tz.eastern)],
           ([("Open", ([2] : List ℚ))]).map fun c => (renameDate c.1, c.2)⟩ ∧
    ∀ g, process_data ⟨.dt [3] (some Tz.eastern), "Date", [], [("Open", [2])]⟩ = .ok g →
      ∃ e, process_data g = .error e :=
  process_data_normalized_behavior [3] "Date" [("Open", [2])] rfl

/-! ### C7 — timezone conversion leaves no naive timestamps -/

/-- C7: on a raw bar frame (a `DatetimeIndex`, naive or aware, and no
pre-existing datetime column), `process_data` succeeds and every timestamp
of the resulting datetime column is timezone-aware in `US/Eastern`; a
naive index is treated as UTC, its wall-clock values becoming the UTC
instants of the output unchanged. -/
theorem process_data_no_naive_stamps (ins : List ℤ) (tzi : Option Tz)
    (name : String) (vcs : List (String × List ℚ))
    (hclash : (vcs.map Prod.fst).contains name = false) :
    ∃ g, process_data ⟨.dt ins tzi, name, [], vcs⟩ = .ok g ∧
      g.dtCols = [(renameDate name, ins.map fun t => Stamp.aware t Tz.eastern)] ∧
      ∀ c ∈ g.dtCols, ∀ s ∈ c.2, ∃ t, s = Stamp.aware t Tz.eastern := by
  have hcond : ¬((false : Bool) = true ∨
      (List.map Prod.fst vcs).contains name = true) := by
    intro hor
    rcases hor with h | h
    · simp at h
    · rw [hclash] at h; simp at h
  refine ⟨⟨.range ins.length, "",
      [(renameDate name, ins.map fun t => Stamp.aware t Tz.eastern)],
      vcs.map fun c => (renameDate c.1, c.2)⟩, ?_, rfl, ?_⟩
  · cases tzi with
    | none =>
      simp [process_data, tzinfoE, tz_localize_utc, tz_convert_eastern,
        bind, Except.bind]
      rw [if_neg hcond]
      rfl
    | some tz =>
      simp [process_data, tzinfoE, tz_localize_utc, tz_convert_eastern,
        bind, Except.bind]
      rw [if_neg hcond]
      rfl
  · intro c hc s hs
    rcases List.mem_singleton.mp hc with rfl
    obtain ⟨t, _, rfl⟩ := List.mem_map.mp hs
    exact ⟨t, rfl⟩

/-- C7 (witness): a naive two-row frame is converted; both stamps come out
aware in `US/Eastern`. -/
theorem process_data_no_naive_stamps_witness :
    ∃ g, process_data ⟨.dt [5, 65] none, "Datetime", [], [("Close", [1])]⟩ = .ok g ∧
      g.dtCols = [(renameDate "Datetime",
        ([5, 65] : List ℤ).map fun t => Stamp.aware t Tz.eastern)] ∧
      ∀ c ∈ g.dtCols, ∀ s ∈ c.2, ∃ t, s = Stamp.aware t Tz.eastern :=
  process_data_no_naive_stamps [5, 65] none "Datetime" [("Close", [1])] rfl

/-! ### Indicator engine lemmas and claims -/

lemma map_range_none {β : Type} (n : ℕ) (f : ℕ → Option β)
    (h : ∀ i < n, f i = none) :
    (List.range n).map f = List.replicate n none := by
  induction n with
  | zero => rfl
  | succ n ih =>
    rw [List.range_succ, List.map_append, List.replicate_succ']
    rw [ih (fun i hi => h i (lt_trans hi (Nat.lt_succ_self n)))]
    simp [h n (Nat.lt_succ_self n)]

lemma smaCol_short (w : ℕ) (C : List ℚ) (h : C.length < w) :
    smaCol w C = List.replicate C.length none := by
  unfold smaCol
  apply map_range_none
  intro i hi
  rw [if_neg]
  omega

lemma emaCol_short (w : ℕ) (C : List ℚ) (h : C.length < w) :
    emaCol w C = List.replicate C.length none := by
  unfold emaCol
  rw [if_pos h]

lemma rsiCol_short (w : ℕ) (C : List ℚ) (h : C.length < w) :
    rsiCol w C = List.replicate C.length none := by
  simp only [rsiCol]
  rw [if_pos]
  rw [List.length_zipWith, List.length_drop]
  omega

lemma bbUpperCol_short (C : List ℚ) (h : C.length < 20) :
    bbUpperCol C = List.replicate C.length none := by
  unfold bbUpperCol
  apply map_range_none
  intro i hi
  rw [if_neg]
  omega

lemma bbLowerCol_short (C : List ℚ) (h : C.length < 20) :
    bbLowerCol C = List.replicate C.length none := by
  unfold bbLowerCol
  apply map_range_none
  intro i hi
  rw [if_neg]
  omega

lemma bbMiddleCol_short (C : List ℚ) (h : C.length < 20) :
    bbMiddleCol C = List.replicate C.length none := by
  unfold bbMiddleCol
  apply map_range_none
  intro i hi
  rw [if_neg]
  omega

lemma length_smaCol (w : ℕ) (C : List ℚ) : (smaCol w C).length = C.length := by
  simp [smaCol]

lemma length_emaCol (w : ℕ) (C : List ℚ) (hw : 1 ≤ w) :
    (emaCol w C).length = C.length := by
  unfold emaCol
  split
  · simp
  · rename_i h
    push_neg at h
    rw [List.length_append, List.length_replicate, List.length_map,
      List.length_scanl, List.length_drop]
    omega

lemma length_rsiCol (w : ℕ) (C : List ℚ) (hw : 1 ≤ w) :
    (rsiCol w C).length = C.length := by
  have hzip : (List.zipWith (fun a b => a - b) (C.drop 1) C).length =
      C.length - 1 := by
    rw [List.length_zipWith, List.length_drop]
    exact min_eq_left (Nat.sub_le _ _)
  simp only [rsiCol]
  split
  · simp
  · rename_i h
    push_neg at h
    rw [hzip] at h
    rw [List.length_append, List.length_replicate, List.length_map,
      List.length_scanl, List.length_drop, List.length_map, hzip]
    omega

lemma length_bbUpperCol (C : List ℚ) : (bbUpperCol C).length = C.length := by
  simp [bbUpperCol]

lemma length_bbLowerCol (C : List ℚ) : (bbLowerCol C).length = C.length := by
  simp [bbLowerCol]

lemma length_bbMiddleCol (C : List ℚ) : (bbMiddleCol C).length = C.length := by
  simp [bbMiddleCol]

lemma length_macdLine (C : List ℚ) : (macdLine C).length = C.length := by
  unfold macdLine
  rw [List.length_zipWith, length_emaCol 12 C (by norm_num),
    length_emaCol 26 C (by norm_num), min_self]

lemma zipWith_sub_none_right (l : List (Option ℚ)) (n : ℕ) (hl : l.length = n) :
    List.zipWith
      (fun a b => match a, b with
        | some x, some y => some (x - y)
        | _, _ => none)
      l (List.replicate n (none : Option ℚ)) = List.replicate n none := by
  induction l generalizing n with
  | nil => rw [← hl]; rfl
  | cons x l ih =>
    rw [← hl, List.length_cons, List.replicate_succ, List.zipWith_cons_cons,
      ih l.length rfl]
    cases x <;> rfl

lemma macdLine_short (C : List ℚ) (h : C.length < 26) :
    macdLine C = List.replicate C.length none := by
  unfold macdLine
  rw [emaCol_short 26 C h]
  exact zipWith_sub_none_right _ _ (length_emaCol 12 C (by norm_num))

lemma takeWhile_isNone_replicate (n : ℕ) :
    (List.replicate n (none : Option ℚ)).takeWhile Option.isNone =
      List.replicate n none := by
  induction n with
  | zero => rfl
  | succ n ih => rw [List.replicate_succ, List.takeWhile_cons]; simp [ih]

lemma length_macdSignalCol (C : List ℚ) :
    (macdSignalCol C).length = C.length := by
  unfold macdSignalCol
  rw [List.length_append, List.length_replicate,
    length_emaCol 9 _ (by norm_num), List.length_map, List.length_drop,
    length_macdLine]
  have hk : (List.takeWhile Option.isNone (macdLine C)).length ≤
      (macdLine C).length := (List.takeWhile_prefix _).length_le
  rw [length_macdLine] at hk
  omega

lemma macdSignalCol_short (C : List ℚ) (h : C.length < 26) :
    macdSignalCol C = List.replicate C.length none := by
  simp only [macdSignalCol]
  rw [macdLine_short C h, takeWhile_isNone_replicate, List.length_replicate]
  rw [List.drop_replicate]
  simp [emaCol]

/-- C5 (counterexample): the engine does raise for one short series: a
one-row frame (length 1, below every window) makes `squeeze()` return a
scalar, whose `ffill()` raises `AttributeError`, so
`add_technical_indicators` fails instead of returning all-undefined
columns. -/
theorem indicator_engine_short_series_counterexample :
    add_technical_indicators [7] =
      .error "AttributeError: float object has no attribute ffill" ∧
    ([7] : List ℚ).length < 20 := by
  exact ⟨rfl, by norm_num⟩

/-- C5 (amended: excluding series of length exactly 1, where the
squeeze/ffill pair raises `AttributeError`): the Indicator Engine raises
no error — it returns the full set of indicator columns, each always of
the length of the series, and when the series is shorter than an
indicator's window that indicator's columns are entirely undefined. -/
theorem indicator_engine_short_series (C : List ℚ) (hne : C.length ≠ 1) :
    ∃ s, add_technical_indicators C = .ok s ∧
    (s.sma20.length = C.length ∧
     s.ema20.length = C.length ∧
     s.rsi14.length = C.length ∧
     s.macd.length = C.length ∧
     s.macdSignal.length = C.length ∧
     s.bbUpper.length = C.length ∧
     s.bbLower.length = C.length ∧
     s.bbMiddle.length = C.length) ∧
    (C.length < 20 →
      s.sma20 = List.replicate C.length none ∧
      s.ema20 = List.replicate C.length none ∧
      s.bbUpper = List.replicate C.length none ∧
      s.bbLower = List.replicate C.length none ∧
      s.bbMiddle = List.replicate C.length none) ∧
    (C.length < 14 →
      s.rsi14 = List.replicate C.length none) ∧
    (C.length < 26 →
      s.macd = List.replicate C.length none ∧
      s.macdSignal = List.replicate C.length none) := by
  have hok : add_technical_indicators C =
      .ok ⟨smaCol 20 C, emaCol 20 C, rsiCol 14 C, macdLine C, macdSignalCol C,
        bbUpperCol C, bbLowerCol C, bbMiddleCol C⟩ := by
    rcases C with _ | ⟨x, _ | ⟨y, t⟩⟩
    · rfl
    · exact absurd rfl hne
    · rfl
  refine ⟨_, hok, ⟨length_smaCol 20 C, length_emaCol 20 C (by norm_num),
    length_rsiCol 14 C (by norm_num), length_macdLine C, length_macdSignalCol C,
    length_bbUpperCol C, length_bbLowerCol C, length_bbMiddleCol C⟩, ?_, ?_, ?_⟩
  · intro h
    exact ⟨smaCol_short 20 C h, emaCol_short 20 C h, bbUpperCol_short C h,
      bbLowerCol_short C h, bbMiddleCol_short C h⟩
  · intro h
    exact rsiCol_short 14 C h
  · intro h
    exact ⟨macdLine_short C h, macdSignalCol_short C h⟩

/-- C5 (witness): a three-element series (length not 1) yields
all-undefined columns of length three and no error. -/
theorem indicator_engine_short_series_witness :
    ([1, 2, 3] : List ℚ).length ≠ 1 ∧
    ∃ s, add_technical_indicators [1, 2, 3] = .ok s ∧
      s.sma20 = List.replicate 3 none ∧
      s.rsi14 = List.replicate 3 none ∧
      s.macd = List.replicate 3 none ∧
      s.bbUpper = List.replicate 3 none ∧
      s.macdSignal.length = 3 := by
  have hne : ([1, 2, 3] : List ℚ).length ≠ 1 := by norm_num
  obtain ⟨s, hok, hlen, h20, h14, h26⟩ :=
    indicator_engine_short_series [1, 2, 3] hne
  exact ⟨hne, s, hok, (h20 (by norm_num)).1, h14 (by norm_num),
    (h26 (by norm_num)).1, (h20 (by norm_num)).2.2.1, hlen.2.2.2.2.1⟩

lemma deltas_pos (C : List ℚ) (h : C.Chain' (· < ·)) :
    ∀ d ∈ List.zipWith (fun a b => a - b) (C.drop 1) C, 0 < d := by
  induction C with
  | nil => intro d hd; simp at hd
  | cons a t ih =>
    cases t with
    | nil => intro d hd; simp at hd
    | cons b t2 =>
      intro d hd
      rw [List.chain'_cons] at h
      rw [List.drop_one, List.tail_cons, List.zipWith_cons_cons] at hd
      rcases List.mem_cons.mp hd with rfl | hd2
      · linarith [h.1]
      · apply ih h.2 d
        rw [List.drop_one, List.tail_cons]
        exact hd2

lemma scanl_wilder_snd_zero (w : ℕ) (l : List (ℚ × ℚ)) (s : ℚ × ℚ)
    (hl : ∀ p ∈ l, p.2 = 0) (hs : s.2 = 0) :
    ∀ q ∈ l.scanl
      (fun a p => ((a.1 * ((w : ℚ) - 1) + p.1) / w, (a.2 * ((w : ℚ) - 1) + p.2) / w))
      s, q.2 = 0 := by
  induction l generalizing s with
  | nil =>
    intro q hq
    rw [List.scanl_nil, List.mem_singleton] at hq
    rw [hq]; exact hs
  | cons p l ih =>
    intro q hq
    rw [List.scanl_cons, List.singleton_append, List.mem_cons] at hq
    rcases hq with rfl | hq2
    · exact hs
    · apply ih _ (fun r hr => hl r (List.mem_cons_of_mem p hr)) _ q hq2
      show (s.2 * ((w : ℚ) - 1) + p.2) / w = 0
      rw [hs, hl p (List.mem_cons_self p l)]
      simp

lemma length_deltas (C : List ℚ) :
    (List.zipWith (fun a b => a - b) (C.drop 1) C).length = C.length - 1 := by
  rw [List.length_zipWith, List.length_drop]
  exact min_eq_left (Nat.sub_le _ _)

/-- C4: on a strictly increasing close series every defined RSI value is
100 (all deltas are gains, the Wilder-smoothed average loss stays zero,
and the zero-loss case is defined as 100), and with at least 15 closes the
position after the 14-delta warm-up is defined. -/
theorem rsi_increasing_all_100 (C : List ℚ) (h : C.Chain' (· < ·)) :
    (∀ x ∈ rsiCol 14 C, ∀ v, x = some v → v = 100) ∧
    (15 ≤ C.length → (rsiCol 14 C).getD 14 none ≠ none) := by
  have hpos := deltas_pos C h
  simp only [rsiCol]
  split
  · rename_i hg
    constructor
    · intro x hx v hv
      rw [List.eq_of_mem_replicate hx] at hv
      exact Option.noConfusion hv
    · intro h15
      exfalso
      rw [length_deltas] at hg
      omega
  · rename_i hg
    set ds := List.zipWith (fun a b => a - b) (C.drop 1) C with hds
    set gl := ds.map (fun d => (max d 0, max (-d) 0)) with hgl
    set seed := (mean ((gl.take 14).map Prod.fst),
      mean ((gl.take 14).map Prod.snd)) with hseeddef
    set avgs := (gl.drop 14).scanl
      (fun a p => ((a.1 * (((14 : ℕ) : ℚ) - 1) + p.1) / ((14 : ℕ) : ℚ),
        (a.2 * (((14 : ℕ) : ℚ) - 1) + p.2) / ((14 : ℕ) : ℚ))) seed with havgs
    have hglsnd : ∀ p ∈ gl, p.2 = 0 := by
      intro p hp
      obtain ⟨d, hd, rfl⟩ := List.mem_map.mp hp
      have hd0 := hpos d hd
      show max (-d) 0 = 0
      exact max_eq_right (by linarith)
    have hseed : seed.2 = 0 := by
      show mean _ = 0
      have hz : ∀ y ∈ (gl.take 14).map Prod.snd, y = 0 := by
        intro y hy
        obtain ⟨p, hp, rfl⟩ := List.mem_map.mp hy
        exact hglsnd p (List.take_subset 14 _ hp)
      unfold mean
      rw [List.sum_eq_zero hz, zero_div]
    have hall : ∀ q ∈ avgs, q.2 = 0 := by
      rw [havgs]
      exact scanl_wilder_snd_zero 14 (gl.drop 14) seed
        (fun p hp => hglsnd p (List.drop_subset 14 _ hp)) hseed
    constructor
    · intro x hx v hv
      rcases List.mem_append.mp hx with hx1 | hx2
      · rw [List.eq_of_mem_replicate hx1] at hv
        exact Option.noConfusion hv
      · obtain ⟨a, ha, rfl⟩ := List.mem_map.mp hx2
        rw [if_pos (hall a ha)] at hv
        exact (Option.some_inj.mp hv).symm
    · intro _h15
      rw [List.getD_eq_getElem?_getD, List.getElem?_append_right (by
        rw [List.length_replicate])]
      rw [List.length_replicate, Nat.sub_self, List.getElem?_map]
      obtain ⟨a, l2, hal⟩ : ∃ a l2, avgs = a :: l2 := by
        rw [havgs]
        rcases gl.drop 14 with _ | ⟨p, l3⟩
        · exact ⟨seed, [], by rw [List.scanl_nil]⟩
        · exact ⟨seed, _, by rw [List.scanl_cons, List.singleton_append]⟩
      rw [hal, List.getElem?_cons_zero]
      simp



/-- C4 (witness): the strictly increasing series `0, 1, ..., 15`. -/
theorem rsi_increasing_all_100_witness :
    c4C.Chain' (· < ·) ∧
    (∀ x ∈ rsiCol 14 c4C, ∀ v, x = some v → v = 100) ∧
    (rsiCol 14 c4C).getD 14 none ≠ none := by
  have hc : c4C.Chain' (· < ·) := by
    unfold c4C
    norm_num [List.chain'_cons]
  have hlen : 15 ≤ c4C.length := by simp [c4C]
  exact ⟨hc, (rsi_increasing_all_100 c4C hc).1,
    (rsi_increasing_all_100 c4C hc).2 hlen⟩

/-- C3: wherever the Bollinger upper and lower bands are both defined,
their difference is exactly `2 * k * sigma` with `k = 2` and `sigma` the
window-20 population standard deviation of the trailing window, and the
middle band column equals the `SMA_20` column exactly. -/
theorem bollinger_width_and_middle (C : List ℚ) :
    (∀ i u lo, (bbUpperCol C).getD i none = some u →
      (bbLowerCol C).getD i none = some lo →
      u - lo = 2 * 2 * stddev (windowAt 20 C i)) ∧
    bbMiddleCol C = smaCol 20 C := by
  constructor
  · intro i u lo hu hlo
    by_cases hi : i < C.length
    · rw [List.getD_eq_getElem?_getD, bbUpperCol, List.getElem?_map,
        List.getElem?_range hi] at hu
      rw [List.getD_eq_getElem?_getD, bbLowerCol, List.getElem?_map,
        List.getElem?_range hi] at hlo
      simp only [Option.map_some', Option.getD_some] at hu hlo
      by_cases hw : 20 ≤ i + 1
      · rw [if_pos hw] at hu hlo
        have hu2 := Option.some_inj.mp hu
        have hlo2 := Option.some_inj.mp hlo
        rw [← hu2, ← hlo2]
        ring
      · rw [if_neg hw] at hu
        exact absurd hu (by simp)
    · exfalso
      rw [List.getD_eq_getElem?_getD, List.getElem?_eq_none] at hu
      · exact Option.noConfusion hu
      · rw [length_bbUpperCol]
        omega
  · rfl



/-- C3 (witness): on a constant series of 20 closes the bands are defined
at index 19 and the width collapses to `4 * sigma`. -/
theorem bollinger_width_and_middle_witness :
    (bbUpperCol c3C).getD 19 none =
      some (((mean (windowAt 20 c3C 19) : ℚ) : ℝ) + 2 * stddev (windowAt 20 c3C 19)) ∧
    (bbLowerCol c3C).getD 19 none =
      some (((mean (windowAt 20 c3C 19) : ℚ) : ℝ) - 2 * stddev (windowAt 20 c3C 19)) ∧
    (((mean (windowAt 20 c3C 19) : ℚ) : ℝ) + 2 * stddev (windowAt 20 c3C 19)) -
        (((mean (windowAt 20 c3C 19) : ℚ) : ℝ) - 2 * stddev (windowAt 20 c3C 19)) =
      2 * 2 * stddev (windowAt 20 c3C 19) ∧
    bbMiddleCol c3C = smaCol 20 c3C := by
  have hu : (bbUpperCol c3C).getD 19 none =
      some (((mean (windowAt 20 c3C 19) : ℚ) : ℝ) + 2 * stddev (windowAt 20 c3C 19)) := rfl
  have hlo : (bbLowerCol c3C).getD 19 none =
      some (((mean (windowAt 20 c3C 19) : ℚ) : ℝ) - 2 * stddev (windowAt 20 c3C 19)) := rfl
  exact ⟨hu, hlo, (bollinger_width_and_middle c3C).1 19 _ _ hu hlo,
    (bollinger_width_and_middle c3C).2⟩

lemma scanl_emaSpec (w : ℕ) (C : List ℚ) :
    ∀ j i0 t s, w ≤ i0 + 1 → t = C.drop (i0 + 1) → s = emaSpecValue w C i0 →
      j < t.length + 1 →
      (t.scanl (emaStep w) s)[j]? = some (emaSpecValue w C (i0 + j)) := by
  intro j
  induction j with
  | zero =>
    intro i0 t s _hw _ht hs _hj
    cases t with
    | nil =>
      rw [List.scanl_nil, List.getElem?_cons_zero, hs, Nat.add_zero]
    | cons c t2 =>
      rw [List.scanl_cons, List.singleton_append, List.getElem?_cons_zero, hs,
        Nat.add_zero]
  | succ j ih =>
    intro i0 t s hw ht hs hj
    cases t with
    | nil => simp at hj
    | cons c t2 =>
      rw [List.scanl_cons, List.singleton_append, List.getElem?_cons_succ]
      have hc : c = C.getD (i0 + 1) 0 := by
        have hdrop : (C.drop (i0 + 1))[0]? = some c := by
          rw [← ht, List.getElem?_cons_zero]
        rw [List.getElem?_drop] at hdrop
        rw [List.getD_eq_getElem?_getD]
        have : i0 + 1 + 0 = i0 + 1 := rfl
        rw [this] at hdrop
        rw [hdrop]
        rfl
      have ht2 : t2 = C.drop (i0 + 1 + 1) := by
        have htail := congrArg List.tail ht
        rw [List.tail_cons, List.tail_drop] at htail
        exact htail
      have hs2 : emaStep w s c = emaSpecValue w C (i0 + 1) := by
        have hnl : ¬ (i0 + 1 < w) := by omega
        rw [emaSpecValue, if_neg hnl, ← hc, hs]
        rfl
      have hlen : j < t2.length + 1 := by
        rw [List.length_cons] at hj
        omega
      have happ := ih (i0 + 1) t2 (emaStep w s c) (by omega) ht2 hs2 hlen
      rw [happ]
      have hidx : i0 + 1 + j = i0 + (j + 1) := by omega
      rw [hidx]

lemma countP_isSome_replicate_none {β : Type} (k : ℕ) :
    (List.replicate k (none : Option β)).countP Option.isSome = 0 := by
  induction k with
  | zero => rfl
  | succ k ih => rw [List.replicate_succ, List.countP_cons]; simp [ih]

lemma countP_isSome_map_some {β : Type} (l : List β) :
    (l.map some).countP Option.isSome = l.length := by
  induction l with
  | nil => rfl
  | cons x l ih => rw [List.map_cons, List.countP_cons]; simp [ih]

/-- C2: for a close series of length at least 20 the `EMA_20` column
agrees with the reference recurrence `emaSpecValue` (seeded at index 19
with the mean of the first 20 closes, smoothing factor `2/21` afterwards):
indexes before 19 are undefined, index 19 holds the SMA seed, every index
from 19 on holds the recurrence value, and exactly `n - 20 + 1` positions
are defined, all undefined ones preceding them. -/
theorem ema_matches_reference (C : List ℚ) (h20 : 20 ≤ C.length) :
    (emaCol 20 C).length = C.length ∧
    (∀ i < 19, (emaCol 20 C)[i]? = some none) ∧
    (emaCol 20 C)[19]? = some (some (mean (C.take 20))) ∧
    (∀ i, 19 ≤ i → i < C.length →
      (emaCol 20 C)[i]? = some (some (emaSpecValue 20 C i))) ∧
    (emaCol 20 C).countP Option.isSome = C.length - 20 + 1 := by
  have hnotshort : ¬ C.length < 20 := by omega
  have hcol : emaCol 20 C = List.replicate 19 none ++
      ((C.drop 20).scanl (emaStep 20) (mean (C.take 20))).map some := by
    unfold emaCol
    rw [if_neg hnotshort]
  have hmain : ∀ i, 19 ≤ i → i < C.length →
      (emaCol 20 C)[i]? = some (some (emaSpecValue 20 C i)) := by
    intro i h19 hi
    rw [hcol]
    rw [List.getElem?_append_right (by rw [List.length_replicate]; omega)]
    rw [List.length_replicate, List.getElem?_map]
    have hs := scanl_emaSpec 20 C (i - 19) 19 (C.drop 20) (mean (C.take 20))
      (by omega) rfl rfl (by rw [List.length_drop]; omega)
    have hidx : 19 + (i - 19) = i := by omega
    rw [hidx] at hs
    rw [hs]
    rfl
  refine ⟨length_emaCol 20 C (by norm_num), ?_, hmain 19 (le_refl 19) (by omega),
    hmain, ?_⟩
  · intro i hi
    rw [hcol, List.getElem?_append]
    rw [if_pos (show i < (List.replicate 19 (none : Option ℚ)).length by
      rw [List.length_replicate]; exact hi)]
    rw [List.getElem?_replicate, if_pos hi]
  · rw [hcol, List.countP_append, countP_isSome_replicate_none,
      countP_isSome_map_some, List.length_scanl, List.length_drop]
    omega



/-- C2 (witness): a concrete series of 21 closes. -/
theorem ema_matches_reference_witness :
    20 ≤ c2C.length ∧
    (emaCol 20 c2C)[19]? = some (some (mean (c2C.take 20))) ∧
    (emaCol 20 c2C).countP Option.isSome = c2C.length - 20 + 1 := by
  have h20 : 20 ≤ c2C.length := by simp [c2C]
  exact ⟨h20, (ema_matches_reference c2C h20).2.2.1,
    (ema_matches_reference c2C h20).2.2.2.2⟩
